import Mathlib

/-!
Shallow embedding of the request-admission and identity-verification core of
the `service-presensi` repository: the JWT credential manager
(`pkg/jwt`, `JWTManager.GenerateToken` / `ValidateToken`), the geofencing
location service (`internal/domain/service/location_service.go`), the
per-client token-bucket rate limiter and its sweep
(`internal/adapter/inbound/http/middleware/ratelimit.go`), and the
context-key plumbing of the auth and audit middlewares.
-/

/-! ## Credential manager (`pkg/jwt`)

The Go code signs `Claims` with HMAC-SHA256 via `github.com/golang-jwt/jwt/v5`.
We embed the cryptography symbolically: a MAC is modelled as the pair of the
secret and the signed payload, so signature verification is equality of pairs
(a perfect MAC).  Time is modelled in integer seconds, matching the
second-granularity `NumericDate` claims the library serialises. -/

structure Claims where
  userID : String
  email : String
  role : String
  tokenType : String
  expiresAt : Int
  issuedAt : Int
  notBefore : Int
deriving DecidableEq, Repr

/-- The `TokenType` constants declared in `pkg/jwt` (`AccessToken`). -/
def accessTokenType : String := "access"

/-- The `TokenType` constants declared in `pkg/jwt` (`RefreshToken`). -/
def refreshTokenType : String := "refresh"

inductive SigningMethod
  | hs256
  | hs384
  | hs512
  | rs256
  | es256
  | noneAlg
deriving DecidableEq, Repr

/-- The type assertion `token.Method.(*jwt.SigningMethodHMAC)` in the keyfunc:
true exactly for the HMAC family of signing methods. -/
def SigningMethod.isHMAC : SigningMethod → Bool
  | .hs256 => true
  | .hs384 => true
  | .hs512 => true
  | _ => false

/-- A symbolic message-authentication code over a claims payload. -/
structure Mac where
  key : String
  payload : Claims
deriving DecidableEq, Repr

def mac (secret : String) (c : Claims) : Mac := ⟨secret, c⟩

/-- A serialized token as the validator sees it: either structurally
malformed, or a well-formed triple of header signing method, claims payload
and signature. -/
inductive Token
  | malformed
  | wellFormed (method : SigningMethod) (claims : Claims) (sig : Mac)
deriving DecidableEq, Repr

/-- The two error values of `pkg/jwt`: `ErrInvalidToken` and
`ErrExpiredToken`. -/
inductive JwtError
  | invalidToken
  | expiredToken
deriving DecidableEq, Repr

/-- The claims literal built by `JWTManager.GenerateToken`: `TokenType` is not
assigned in the Go composite literal, so it is the zero value `""`;
`ExpiresAt = now + accessTokenDuration`, `IssuedAt = NotBefore = now`. -/
def generateClaims (userID email role : String) (now dur : Int) : Claims :=
  { userID := userID
    email := email
    role := role
    tokenType := ""
    expiresAt := now + dur
    issuedAt := now
    notBefore := now }

/-- `JWTManager.GenerateToken`: signs the claims with HS256 and the manager's
secret. -/
def GenerateToken (secret userID email role : String) (now dur : Int) : Token :=
  .wellFormed .hs256 (generateClaims userID email role now dur)
    (mac secret (generateClaims userID email role now dur))

/-- `JWTManager.ValidateToken`.  Mirrors the `jwt/v5` pipeline and the error
mapping in `pkg/jwt`: a parse failure, a non-HMAC signing method (keyfunc
rejection) and a bad signature all surface as `ErrInvalidToken`; claims
validation runs only on a well-signed token, failing as expired exactly when
`!now.Before(exp)`, i.e. `exp ≤ now`, and as `ErrInvalidToken` (not-yet-valid)
when `now < nbf`. -/
def ValidateToken (secret : String) (now : Int) : Token → Except JwtError Claims
  | .malformed => .error .invalidToken
  | .wellFormed method claims sig =>
    if method.isHMAC = false then .error .invalidToken
    else if sig ≠ mac secret claims then .error .invalidToken
    else if claims.expiresAt ≤ now then .error .expiredToken
    else if now < claims.notBefore then .error .invalidToken
    else .ok claims

/-- C2: for a token issued by `GenerateToken`, validation fails with
`ErrExpiredToken` exactly when `now ≥ expiresAt`; at `now = expiresAt` it is
expired, at `now = expiresAt - 1` it succeeds; a bad signature, a non-HMAC
signing method and a malformed token all fail with the distinct
`ErrInvalidToken`. -/
theorem validateToken_expiry_exact_and_errors_distinct
    (secret userID email role : String) (iat dur now : Int) (hdur : 1 ≤ dur) :
    (ValidateToken secret now (GenerateToken secret userID email role iat dur)
        = .error .expiredToken ↔ iat + dur ≤ now)
    ∧ ValidateToken secret (iat + dur) (GenerateToken secret userID email role iat dur)
        = .error .expiredToken
    ∧ ValidateToken secret (iat + dur - 1) (GenerateToken secret userID email role iat dur)
        = .ok (generateClaims userID email role iat dur)
    ∧ (∀ (m : SigningMethod) (c : Claims) (s : Mac), s ≠ mac secret c →
        ValidateToken secret now (.wellFormed m c s) = .error .invalidToken)
    ∧ (∀ (m : SigningMethod) (c : Claims) (s : Mac), m.isHMAC = false →
        ValidateToken secret now (.wellFormed m c s) = .error .invalidToken)
    ∧ ValidateToken secret now .malformed = .error .invalidToken
    ∧ JwtError.expiredToken ≠ JwtError.invalidToken := by
  refine ⟨?_, ?_, ?_, ?_, ?_, ?_, ?_⟩
  · simp only [ValidateToken, GenerateToken, generateClaims, SigningMethod.isHMAC]
    split_ifs with h1 h2 h3 h4 <;> simp_all <;> omega
  · simp only [ValidateToken, GenerateToken, generateClaims, SigningMethod.isHMAC]
    split_ifs with h1 h2 h3 <;> simp_all
  · simp only [ValidateToken, GenerateToken, generateClaims, SigningMethod.isHMAC]
    split_ifs with h1 h2 h3 h4 <;> simp_all <;> omega
  · intro m c s hs
    simp only [ValidateToken]
    split_ifs with h1 h2 <;> simp_all
  · intro m c s hm
    simp only [ValidateToken, hm]
    simp
  · rfl
  · simp

/-- Witness for `validateToken_expiry_exact_and_errors_distinct` at a concrete
input. -/
theorem validateToken_expiry_exact_and_errors_distinct_spot :
    (ValidateToken "k" 3 (GenerateToken "k" "u1" "a@b.c" "admin" 0 10)
        = .error .expiredToken ↔ (0 : Int) + 10 ≤ 3)
    ∧ ValidateToken "k" ((0 : Int) + 10) (GenerateToken "k" "u1" "a@b.c" "admin" 0 10)
        = .error .expiredToken
    ∧ ValidateToken "k" ((0 : Int) + 10 - 1) (GenerateToken "k" "u1" "a@b.c" "admin" 0 10)
        = .ok (generateClaims "u1" "a@b.c" "admin" 0 10)
    ∧ (∀ (m : SigningMethod) (c : Claims) (s : Mac), s ≠ mac "k" c →
        ValidateToken "k" 3 (.wellFormed m c s) = .error .invalidToken)
    ∧ (∀ (m : SigningMethod) (c : Claims) (s : Mac), m.isHMAC = false →
        ValidateToken "k" 3 (.wellFormed m c s) = .error .invalidToken)
    ∧ ValidateToken "k" 3 .malformed = .error .invalidToken
    ∧ JwtError.expiredToken ≠ JwtError.invalidToken :=
  validateToken_expiry_exact_and_errors_distinct "k" "u1" "a@b.c" "admin" 0 10 3
    (by decide)

/-- C3: validating an issued token at `now = issuedAt` with the same secret
succeeds and returns the issued claims with `subjectID`, `email` and `role`
preserved (no field loss). -/
theorem validateToken_roundtrip
    (secret userID email role : String) (iat dur : Int) (hdur : 0 < dur) :
    ValidateToken secret iat (GenerateToken secret userID email role iat dur)
      = .ok { userID := userID, email := email, role := role, tokenType := ""
              expiresAt := iat + dur, issuedAt := iat, notBefore := iat } := by
  simp only [ValidateToken, GenerateToken, generateClaims, SigningMethod.isHMAC]
  split_ifs with h1 h2 h3 h4 <;> simp_all <;> omega

/-- Witness for `validateToken_roundtrip` at a concrete input. -/
theorem validateToken_roundtrip_spot :
    ValidateToken "k" 5 (GenerateToken "k" "u1" "a@b.c" "employee" 5 86400)
      = .ok { userID := "u1", email := "a@b.c", role := "employee", tokenType := ""
              expiresAt := 5 + 86400, issuedAt := 5, notBefore := 5 } :=
  validateToken_roundtrip "k" "u1" "a@b.c" "employee" 5 86400 (by decide)

/-- C10: `GenerateToken` never sets `TokenType`, so the claims it embeds carry
the empty string — never the `"access"` or `"refresh"` constants the `Claims`
type defines — and any successful validation of an issued token returns claims
whose `tokenType` is empty. -/
theorem generateToken_tokenType_empty
    (secret userID email role : String) (iat dur : Int) :
    (generateClaims userID email role iat dur).tokenType = ""
    ∧ (generateClaims userID email role iat dur).tokenType ≠ accessTokenType
    ∧ (generateClaims userID email role iat dur).tokenType ≠ refreshTokenType
    ∧ (∀ now : Int,
        ValidateToken secret now (GenerateToken secret userID email role iat dur)
          = .ok (generateClaims userID email role iat dur)
        ∨ ∃ e, ValidateToken secret now (GenerateToken secret userID email role iat dur)
          = .error e) := by
  refine ⟨rfl, by simp [generateClaims, accessTokenType],
    by simp [generateClaims, refreshTokenType], ?_⟩
  intro now
  simp only [ValidateToken, GenerateToken, SigningMethod.isHMAC]
  split_ifs <;> simp

/-! ## Context-key plumbing (auth middleware vs audit middleware)

`middleware/auth.go` defines `type contextKey string` and stores the
authenticated identity under the typed keys `contextKey("user_id")`,
`contextKey("email")`, `contextKey("role")`.  The audit middleware defines
`type AuditContextKey string` for its own keys and its helper
`getUserFromContext` reads the *plain string* keys `"user_id"`,
`"user_name"`, `"user_role"`.  Go's `context.Value` compares keys with `==`
on `interface{}` values, so values of distinct key types never compare equal
even when the underlying strings coincide.  We model a context key as a
string tagged with its Go dynamic type. -/

inductive CtxKey
  | authKey (s : String)
  | auditKey (s : String)
  | strKey (s : String)
deriving DecidableEq, Repr

def CtxKey.isStrKey : CtxKey → Bool
  | .strKey _ => true
  | _ => false

/-- A Go `context.Context` value chain, newest binding first
(`context.WithValue` shadows outward, and `Value` walks from the newest). -/
abbrev Ctx := List (CtxKey × String)

/-- `ctx.Value(k)`: the newest binding whose key compares equal to `k`. -/
def ctxValue (k : CtxKey) : Ctx → Option String
  | [] => none
  | e :: rest => if e.1 = k then some e.2 else ctxValue k rest

/-- The context writes performed by `AuthMiddleware.Authenticate` after a
token validates: `UserIDKey`, `EmailKey`, `RoleKey` (all of type
`contextKey`). -/
def authenticateCtx (base : Ctx) (userID email role : String) : Ctx :=
  (CtxKey.authKey "role", role) ::
    (CtxKey.authKey "email", email) ::
      (CtxKey.authKey "user_id", userID) :: base

/-- `getUserFromContext` in the audit middleware: reads the untyped string
keys `"user_id"`, `"user_name"`, `"user_role"` and falls back to `""`. -/
def getUserFromContext (ctx : Ctx) : String × String × String :=
  ((ctxValue (.strKey "user_id") ctx).getD "",
   (ctxValue (.strKey "user_name") ctx).getD "",
   (ctxValue (.strKey "user_role") ctx).getD "")

theorem ctxValue_strKey_eq_none (s : String) :
    ∀ ctx : Ctx, (∀ e ∈ ctx, e.1.isStrKey = false) →
      ctxValue (.strKey s) ctx = none := by
  intro ctx
  induction ctx with
  | nil => intro _; rfl
  | cons e rest ih =>
    intro h
    have he : e.1.isStrKey = false := h e (List.mem_cons_self e rest)
    have hne : e.1 ≠ CtxKey.strKey s := by
      cases hk : e.1 <;> simp_all [CtxKey.isStrKey]
    rw [ctxValue, if_neg hne]
    exact ih fun x hx => h x (List.mem_cons_of_mem e hx)

/-- C4: for any request context that carries only typed keys (as every context
built by this middleware chain does), `getUserFromContext` after
`Authenticate` has populated the identity returns empty `userID`, `userName`
and `userRole` — audit-log user attribution is empty regardless of the
authenticated claims. -/
theorem audit_attribution_always_empty (base : Ctx) (userID email role : String)
    (hbase : ∀ e ∈ base, e.1.isStrKey = false) :
    getUserFromContext (authenticateCtx base userID email role) = ("", "", "") := by
  have hall : ∀ e ∈ authenticateCtx base userID email role, e.1.isStrKey = false := by
    intro e he
    simp only [authenticateCtx, List.mem_cons] at he
    rcases he with h | h | h | h
    · subst h; rfl
    · subst h; rfl
    · subst h; rfl
    · exact hbase e h
  simp [getUserFromContext, ctxValue_strKey_eq_none _ _ hall]

/-- Witness for `audit_attribution_always_empty`: the context as built by the
audit middleware (request id, request body) and then the auth middleware. -/
theorem audit_attribution_always_empty_spot :
    getUserFromContext
      (authenticateCtx
        [(CtxKey.auditKey "request_body", "\x7b\x7d"),
         (CtxKey.auditKey "request_id", "req-1")]
        "u1" "a@b.c" "admin") = ("", "", "") :=
  audit_attribution_always_empty _ "u1" "a@b.c" "admin" (by decide)

/-! ## Client registry sweep (`middleware/ratelimit.go`, `cleanupVisitors`)

The registry maps a client IP to a `visitor{limiter, lastSeen}`.  For the
sweep only `lastSeen` matters; each pass deletes exactly the entries with
`time.Since(v.lastSeen) > MaxAge`.  Time is modelled in rational seconds. -/

/-- One pass of the loop body of `cleanupVisitors`: delete every visitor whose
`now - lastSeen > maxAge`, keep the rest. -/
def sweepVisitors (now maxAge : ℚ) (visitors : List (String × ℚ)) :
    List (String × ℚ) :=
  visitors.filter fun v => !(decide (maxAge < now - v.2))

/-- Map access `rl.visitors[ip]` on the registry contents. -/
def lookupVisitor (ip : String) : List (String × ℚ) → Option ℚ
  | [] => none
  | e :: rest => if e.1 = ip then some e.2 else lookupVisitor ip rest

theorem lookupVisitor_eq_none_of_key_not_mem (ip : String) :
    ∀ l : List (String × ℚ), ip ∉ l.map Prod.fst → lookupVisitor ip l = none := by
  intro l
  induction l with
  | nil => intro _; rfl
  | cons e rest ih =>
    intro h
    simp only [List.map_cons, List.mem_cons] at h
    push_neg at h
    rw [lookupVisitor, if_neg (fun hk => h.1 hk.symm)]
    exact ih h.2

/-- C6: after a sweep pass, a visitor whose `lastSeen` is older than `maxAge`
(`now - lastSeen > maxAge`) is absent from the registry, and a visitor touched
more recently than `maxAge` (`now - lastSeen < maxAge`) is still present. -/
theorem sweepVisitors_correct (now maxAge lastSeen : ℚ) (ip : String)
    (visitors : List (String × ℚ))
    (hmem : (ip, lastSeen) ∈ visitors)
    (hnodup : (visitors.map Prod.fst).Nodup) :
    (maxAge < now - lastSeen →
      lookupVisitor ip (sweepVisitors now maxAge visitors) = none)
    ∧ (now - lastSeen < maxAge →
      lookupVisitor ip (sweepVisitors now maxAge visitors) = some lastSeen) := by
  induction visitors with
  | nil => cases hmem
  | cons e rest ih =>
    obtain ⟨k, v⟩ := e
    simp only [List.map_cons, List.nodup_cons] at hnodup
    rcases List.mem_cons.mp hmem with he | hrest
    · injection he with h1 h2
      subst h1
      subst h2
      have hkey : ip ∉ (sweepVisitors now maxAge rest).map Prod.fst := by
        intro hin
        rcases List.mem_map.mp hin with ⟨x, hx, hfst⟩
        exact hnodup.1 (List.mem_map.mpr ⟨x, List.mem_of_mem_filter hx, hfst⟩)
      constructor
      · intro hold
        have hdrop : (!(decide (maxAge < now - lastSeen))) = false := by simp [hold]
        simp only [sweepVisitors, List.filter_cons, hdrop, Bool.false_eq_true,
          if_false]
        exact lookupVisitor_eq_none_of_key_not_mem ip _ hkey
      · intro hrecent
        have hkeep : (!(decide (maxAge < now - lastSeen))) = true := by
          simp only [Bool.not_eq_true', decide_eq_false_iff_not, not_lt]
          linarith
        simp only [sweepVisitors, List.filter_cons, hkeep, if_true]
        rw [lookupVisitor, if_pos rfl]
    · have hkne : k ≠ ip := by
        intro hk
        subst hk
        exact hnodup.1 (List.mem_map.mpr ⟨(k, lastSeen), hrest, rfl⟩)
      have IH := ih hrest hnodup.2
      have step : lookupVisitor ip (sweepVisitors now maxAge ((k, v) :: rest))
          = lookupVisitor ip (sweepVisitors now maxAge rest) := by
        simp only [sweepVisitors, List.filter_cons]
        by_cases hk : (!(decide (maxAge < now - v))) = true
        · rw [if_pos hk, lookupVisitor, if_neg hkne]
        · rw [if_neg hk]
      rw [step]
      exact IH

/-- Witness for `sweepVisitors_correct` at a concrete registry:
`maxAge = 180` seconds, one stale and one fresh visitor. -/
theorem sweepVisitors_correct_spot :
    ((180 : ℚ) < 1000 - 100 →
      lookupVisitor "10.0.0.1"
        (sweepVisitors 1000 180 [("10.0.0.1", 100), ("10.0.0.2", 990)]) = none)
    ∧ ((1000 : ℚ) - 100 < 180 →
      lookupVisitor "10.0.0.1"
        (sweepVisitors 1000 180 [("10.0.0.1", 100), ("10.0.0.2", 990)]) = some 100) :=
  sweepVisitors_correct 1000 180 100 "10.0.0.1"
    [("10.0.0.1", 100), ("10.0.0.2", 990)] (by decide) (by decide)

/-! ## Per-client token bucket (`middleware/ratelimit.go` + `golang.org/x/time/rate`)

`getVisitor` creates a fresh `rate.NewLimiter(RequestsPerSecond, BurstSize)`
per client (a full bucket), and `Limit` consumes one token per request via
`limiter.Allow()`.  The `x/time/rate` limiter is a lazy token bucket: on each
call it refills `tokens = min(burst, tokens + elapsed * limit)` and allows the
request iff at least one token remains, consuming it.  Quantities are
modelled as exact rationals. -/

structure TokenBucket where
  capacity : ℚ
  refillRate : ℚ
  tokens : ℚ
  lastRefill : ℚ
deriving DecidableEq, Repr

/-- Lazy refill: `elapsed = now - lastRefillTimestamp`;
`tokens = min(capacity, tokens + elapsed * refillRatePerSecond)`;
`lastRefillTimestamp = now`. -/
def TokenBucket.refill (b : TokenBucket) (now : ℚ) : TokenBucket :=
  { b with
    tokens := min b.capacity (b.tokens + (now - b.lastRefill) * b.refillRate)
    lastRefill := now }

/-- `limiter.Allow()` at time `now`: refill, then consume one token if at
least one is available. -/
def TokenBucket.allow (b : TokenBucket) (now : ℚ) : Bool × TokenBucket :=
  let b2 := b.refill now
  if 1 ≤ b2.tokens then (true, { b2 with tokens := b2.tokens - 1 })
  else (false, b2)

/-- The bucket `getVisitor` creates on first access: full capacity. -/
def newBucket (capacity refillRate now : ℚ) : TokenBucket :=
  ⟨capacity, refillRate, capacity, now⟩

/-- A sequence of admission checks at the given times. -/
def allowSeq : TokenBucket → List ℚ → List Bool × TokenBucket
  | b, [] => ([], b)
  | b, t :: ts =>
    let p := b.allow t
    let q := allowSeq p.2 ts
    (p.1 :: q.1, q.2)

theorem allowSeq_append (xs ys : List ℚ) : ∀ b : TokenBucket,
    allowSeq b (xs ++ ys) =
      ((allowSeq b xs).1 ++ (allowSeq (allowSeq b xs).2 ys).1,
       (allowSeq (allowSeq b xs).2 ys).2) := by
  induction xs with
  | nil => intro b; simp [allowSeq]
  | cons t xs ih => intro b; simp [allowSeq, ih]

theorem allow_of_min_ge (cap r tok last now : ℚ)
    (h : 1 ≤ min cap (tok + (now - last) * r)) :
    TokenBucket.allow ⟨cap, r, tok, last⟩ now =
      (true, ⟨cap, r, min cap (tok + (now - last) * r) - 1, now⟩) := by
  simp [TokenBucket.allow, TokenBucket.refill, h]

theorem allow_of_min_lt (cap r tok last now : ℚ)
    (h : ¬ 1 ≤ min cap (tok + (now - last) * r)) :
    TokenBucket.allow ⟨cap, r, tok, last⟩ now =
      (false, ⟨cap, r, min cap (tok + (now - last) * r), now⟩) := by
  simp [TokenBucket.allow, TokenBucket.refill, h]

/-- Draining a bucket holding `tok ≥ n` tokens with `n` instantaneous
requests: all allowed, `n` tokens consumed. -/
theorem allowSeq_drain (cap r t0 : ℚ) (n : ℕ) :
    ∀ tok : ℚ, (n : ℚ) ≤ tok → tok ≤ cap →
    allowSeq ⟨cap, r, tok, t0⟩ (List.replicate n t0) =
      (List.replicate n true, ⟨cap, r, tok - n, t0⟩) := by
  induction n with
  | zero => intro tok _ _; simp [allowSeq]
  | succ n ih =>
    intro tok htok hcap
    have hmin : min cap (tok + (t0 - t0) * r) = tok := by
      rw [sub_self, zero_mul, add_zero]
      exact min_eq_right hcap
    have h1 : (1 : ℚ) ≤ tok := by
      have : ((n : ℚ)) + 1 ≤ tok := by push_cast at htok ⊢; linarith
      have hn : (0 : ℚ) ≤ (n : ℚ) := Nat.cast_nonneg n
      linarith
    have hstep : TokenBucket.allow ⟨cap, r, tok, t0⟩ t0 =
        (true, ⟨cap, r, tok - 1, t0⟩) := by
      rw [allow_of_min_ge cap r tok t0 t0 (by rw [hmin]; exact h1), hmin]
    rw [List.replicate_succ, allowSeq, hstep]
    have htok1 : (n : ℚ) ≤ tok - 1 := by push_cast at htok ⊢; linarith
    have hcap1 : tok - 1 ≤ cap := by linarith
    rw [ih (tok - 1) htok1 hcap1]
    have : tok - 1 - (n : ℚ) = tok - ((n : ℚ) + 1) := by ring
    simp only [List.replicate_succ]
    push_cast
    rw [this]

/-- An empty-but-refilling bucket rejects every request made before a full
token has accumulated, and its token count stays at
`(lastAttempt - drainTime) * rate`. -/
theorem allowSeq_starve (cap r t0 : ℚ) (hcap : 1 ≤ cap) (hr : 0 < r) :
    ∀ (ts : List ℚ) (L : ℚ), t0 ≤ L → L < t0 + 1 / r →
    List.Chain' (· ≤ ·) (L :: ts) → (∀ t ∈ ts, t < t0 + 1 / r) →
    (allowSeq ⟨cap, r, (L - t0) * r, L⟩ ts).1 = List.replicate ts.length false
    ∧ ∃ L2, (allowSeq ⟨cap, r, (L - t0) * r, L⟩ ts).2 = ⟨cap, r, (L2 - t0) * r, L2⟩
        ∧ t0 ≤ L2 ∧ L2 < t0 + 1 / r := by
  intro ts
  induction ts with
  | nil =>
    intro L hL0 hL _ _
    exact ⟨rfl, L, rfl, hL0, hL⟩
  | cons t ts ih =>
    intro L hL0 hL hchain hwin
    have hLt : L ≤ t := (List.chain'_cons.mp hchain).1
    have ht : t < t0 + 1 / r := hwin t (List.mem_cons_self t ts)
    have ht0 : t0 ≤ t := le_trans hL0 hLt
    have hsum : (L - t0) * r + (t - L) * r = (t - t0) * r := by ring
    have hlt1 : (t - t0) * r < 1 := by
      have h1 : t - t0 < 1 / r := by linarith
      calc (t - t0) * r < (1 / r) * r := by
            exact mul_lt_mul_of_pos_right h1 hr
        _ = 1 := by field_simp
    have hmin : min cap ((L - t0) * r + (t - L) * r) = (t - t0) * r := by
      rw [hsum]
      exact min_eq_right (by linarith)
    have hstep : TokenBucket.allow ⟨cap, r, (L - t0) * r, L⟩ t =
        (false, ⟨cap, r, (t - t0) * r, t⟩) := by
      rw [allow_of_min_lt cap r _ L t (by rw [hmin]; linarith), hmin]
    rw [allowSeq, hstep]
    have IH := ih t ht0 ht (List.chain'_cons.mp hchain).2
      (fun x hx => hwin x (List.mem_cons_of_mem t hx))
    exact ⟨by simp [IH.1, List.replicate_succ], IH.2⟩

/-- After waiting until exactly `t0 + 1/r`, a bucket drained at `t0` has
accumulated exactly one token: one request is allowed and an immediate second
one is rejected. -/
theorem allowSeq_revive (cap r t0 L : ℚ) (hcap : 1 ≤ cap) (hr : 0 < r)
    (hL0 : t0 ≤ L) (hL : L ≤ t0 + 1 / r) :
    (allowSeq ⟨cap, r, (L - t0) * r, L⟩ [t0 + 1 / r, t0 + 1 / r]).1
      = [true, false] := by
  have hr0 : r ≠ 0 := ne_of_gt hr
  have hone : (L - t0) * r + (t0 + 1 / r - L) * r = 1 := by
    field_simp
    ring
  have hmin1 : min cap ((L - t0) * r + (t0 + 1 / r - L) * r) = 1 := by
    rw [hone]
    exact min_eq_right hcap
  have hstep1 : TokenBucket.allow ⟨cap, r, (L - t0) * r, L⟩ (t0 + 1 / r) =
      (true, ⟨cap, r, 0, t0 + 1 / r⟩) := by
    rw [allow_of_min_ge cap r _ L _ (by rw [hmin1]), hmin1]
    norm_num
  have hmin0 : min cap ((0 : ℚ) + (t0 + 1 / r - (t0 + 1 / r)) * r) = 0 := by
    rw [sub_self, zero_mul, add_zero]
    exact min_eq_right (by linarith)
  have hstep2 : TokenBucket.allow ⟨cap, r, 0, t0 + 1 / r⟩ (t0 + 1 / r) =
      (false, ⟨cap, r, 0, t0 + 1 / r⟩) := by
    rw [allow_of_min_lt cap r _ _ _ (by rw [hmin0]; norm_num), hmin0]
  rw [allowSeq, hstep1, allowSeq, hstep2]
  rfl

/-- C5: for every refill rate `r > 0` and capacity `c ≥ 1`, starting from the
full bucket created on first access: `c` instantaneous requests at `t0` are
all allowed; any further requests made (in nondecreasing order) strictly
before `t0 + 1/r` are all rejected; at exactly `t0 + 1/r` one more request is
allowed and an immediate second one is rejected; and refill is lazy,
`tokens = min(capacity, tokens + elapsed * refillRatePerSecond)`. -/
theorem tokenBucket_burst_starve_revive (c : ℕ) (r t0 : ℚ) (ts : List ℚ)
    (hc : 1 ≤ c) (hr : 0 < r)
    (hchain : List.Chain' (· ≤ ·) (t0 :: ts))
    (hwin : ∀ t ∈ ts, t < t0 + 1 / r) :
    (∀ (b : TokenBucket) (now : ℚ),
      (b.refill now).tokens
        = min b.capacity (b.tokens + (now - b.lastRefill) * b.refillRate))
    ∧ (allowSeq (newBucket c r t0)
        (List.replicate c t0 ++ ts ++ [t0 + 1 / r, t0 + 1 / r])).1
      = List.replicate c true ++ List.replicate ts.length false ++ [true, false] := by
  refine ⟨fun b now => rfl, ?_⟩
  have hcq : (1 : ℚ) ≤ (c : ℚ) := by exact_mod_cast hc
  have hdrain := allowSeq_drain (c : ℚ) r t0 c (c : ℚ) le_rfl le_rfl
  have hzero : ((c : ℚ) - (c : ℚ)) = (t0 - t0) * r := by ring
  have hdrain2 : allowSeq (newBucket c r t0) (List.replicate c t0) =
      (List.replicate c true, ⟨(c : ℚ), r, (t0 - t0) * r, t0⟩) := by
    rw [newBucket, hdrain, hzero]
  have hstarve := allowSeq_starve (c : ℚ) r t0 hcq hr ts t0 le_rfl
    (by have : 0 < 1 / r := by positivity
        linarith)
    hchain hwin
  obtain ⟨hsfalse, L2, hsstate, hL20, hL2⟩ := hstarve
  have hrevive := allowSeq_revive (c : ℚ) r t0 L2 hcq hr hL20 (le_of_lt hL2)
  rw [allowSeq_append, allowSeq_append, hdrain2]
  simp only [hdrain2, hsfalse, hsstate, hrevive]

/-- Witness for `tokenBucket_burst_starve_revive` at a concrete configuration:
capacity 2, rate 2 tokens/second, drain at `t0 = 0`, rejected attempts at
times 0 and 1/4, revival at 1/2. -/
theorem tokenBucket_burst_starve_revive_spot :
    (∀ (b : TokenBucket) (now : ℚ),
      (b.refill now).tokens
        = min b.capacity (b.tokens + (now - b.lastRefill) * b.refillRate))
    ∧ (allowSeq (newBucket (2 : ℕ) 2 0)
        (List.replicate 2 0 ++ [0, 1/4] ++ [0 + 1 / 2, 0 + 1 / 2])).1
      = List.replicate 2 true ++ List.replicate ([0, 1/4] : List ℚ).length false
          ++ [true, false] :=
  tokenBucket_burst_starve_revive 2 2 0 [0, 1/4] (by decide) (by norm_num)
    (by norm_num [List.chain'_cons]) (by
      intro t ht
      rcases List.mem_cons.mp ht with h | h
      · rw [h]; norm_num
      · rcases List.mem_cons.mp h with h2 | h2
        · rw [h2]; norm_num
        · cases h2)

/-! ## Geofencing (`internal/domain/service/location_service.go`)

Coordinates and distances are embedded over the reals; `math.Atan2` is
modelled by the standard two-argument arctangent.  `AllowedLocation` keeps
the three fields the distance engine reads (`Latitude`, `Longitude`,
`RadiusMeters`); the validator receives the snapshot that
`locationRepo.GetAllActive` returned. -/

/-- Go's `math.Atan2 y x`. -/
noncomputable def atan2 (y x : ℝ) : ℝ :=
  if 0 < x then Real.arctan (y / x)
  else if x < 0 then
    (if 0 ≤ y then Real.arctan (y / x) + Real.pi else Real.arctan (y / x) - Real.pi)
  else if 0 < y then Real.pi / 2
  else if y < 0 then -(Real.pi / 2)
  else 0

/-- `EarthRadiusMeters = 6371000`. -/
noncomputable def EarthRadiusMeters : ℝ := 6371000

/-- `HaversineDistance`: degree-to-radian conversion, the haversine term `a`,
the central angle `c = 2 atan2(√a, √(1-a))` and the distance `R * c`. -/
noncomputable def HaversineDistance (lat1 lon1 lat2 lon2 : ℝ) : ℝ :=
  let lat1Rad := lat1 * Real.pi / 180
  let lat2Rad := lat2 * Real.pi / 180
  let deltaLat := (lat2 - lat1) * Real.pi / 180
  let deltaLon := (lon2 - lon1) * Real.pi / 180
  let a := Real.sin (deltaLat / 2) * Real.sin (deltaLat / 2) +
    Real.cos lat1Rad * Real.cos lat2Rad *
      Real.sin (deltaLon / 2) * Real.sin (deltaLon / 2)
  let c := 2 * atan2 (Real.sqrt a) (Real.sqrt (1 - a))
  EarthRadiusMeters * c

structure AllowedLocation where
  latitude : ℝ
  longitude : ℝ
  radiusMeters : ℝ

/-- Go's `math.MaxFloat64`, the initial value of `minDistance` in
`GetNearestLocation`. -/
noncomputable def maxFloat64 : ℝ := (2 ^ 53 - 1) * 2 ^ 971

inductive GeoError
  | noAllowedLocations
  | outsideAllowedArea
deriving DecidableEq, Repr

/-- The zone loop of `ValidateCheckInLocation`: return `nil` on the first
zone whose center is within `RadiusMeters` of the coordinate, otherwise fall
through to `ErrOutsideAllowedArea`. -/
noncomputable def checkZones (lat lon : ℝ) : List AllowedLocation → Except GeoError Unit
  | [] => .error .outsideAllowedArea
  | z :: rest =>
    if HaversineDistance lat lon z.latitude z.longitude ≤ z.radiusMeters then .ok ()
    else checkZones lat lon rest

/-- `LocationService.ValidateCheckInLocation`, with the repository snapshot
passed in: disabled short-circuit, then the `(0,0)` "not provided" sentinel
short-circuit, then the empty-zone rejection, then the zone loop. -/
noncomputable def ValidateCheckInLocation (enabled : Bool) (lat lon : ℝ)
    (locations : List AllowedLocation) : Except GeoError Unit :=
  if enabled = false then .ok ()
  else if lat = 0 ∧ lon = 0 then .ok ()
  else
    match locations with
    | [] => .error .noAllowedLocations
    | z :: rest => checkZones lat lon (z :: rest)

/-- The fold of `GetNearestLocation`: keep the running nearest zone and
minimal distance, updating only on a strictly smaller distance. -/
noncomputable def nearestAux (lat lon : ℝ) :
    List AllowedLocation → Option AllowedLocation → ℝ → Option AllowedLocation × ℝ
  | [], cur, m => (cur, m)
  | z :: rest, cur, m =>
    if HaversineDistance lat lon z.latitude z.longitude < m then
      nearestAux lat lon rest (some z) (HaversineDistance lat lon z.latitude z.longitude)
    else
      nearestAux lat lon rest cur m

/-- `LocationService.GetNearestLocation` with the repository snapshot passed
in: `ErrNoAllowedLocations` on an empty snapshot, otherwise the fold starting
from `nearest = nil`, `minDistance = math.MaxFloat64`. -/
noncomputable def GetNearestLocation (lat lon : ℝ) (locs : List AllowedLocation) :
    Except GeoError (Option AllowedLocation × ℝ) :=
  match locs with
  | [] => .error .noAllowedLocations
  | z :: rest => .ok (nearestAux lat lon (z :: rest) none maxFloat64)

theorem haversine_self (lat lon : ℝ) : HaversineDistance lat lon lat lon = 0 := by
  simp only [HaversineDistance, sub_self, zero_mul, zero_div, Real.sin_zero,
    mul_zero, zero_add, add_zero, Real.sqrt_zero, sub_zero, Real.sqrt_one]
  rw [atan2, if_pos (by norm_num : (0:ℝ) < 1)]
  norm_num [Real.arctan_zero]

theorem atan2_abs_le (y x : ℝ) : |atan2 y x| ≤ Real.pi / 2 + Real.pi := by
  have hpi : 0 < Real.pi := Real.pi_pos
  have hlo := Real.neg_pi_div_two_lt_arctan (y / x)
  have hhi := Real.arctan_lt_pi_div_two (y / x)
  unfold atan2
  split_ifs <;>
    refine abs_le.mpr ⟨by linarith, by linarith⟩

theorem haversine_lt_maxFloat (lat1 lon1 lat2 lon2 : ℝ) :
    HaversineDistance lat1 lon1 lat2 lon2 < maxFloat64 := by
  have hkey : ∀ y x : ℝ, EarthRadiusMeters * (2 * atan2 y x) < maxFloat64 := by
    intro y x
    have hb := atan2_abs_le y x
    have ht : atan2 y x ≤ Real.pi / 2 + Real.pi :=
      le_trans (le_abs_self _) hb
    have hpi4 : Real.pi ≤ 4 := Real.pi_le_four
    have hsmall : EarthRadiusMeters * (2 * atan2 y x) ≤ 76452000 := by
      rw [EarthRadiusMeters]
      nlinarith
    have hbig : (76452000 : ℝ) < maxFloat64 := by
      rw [maxFloat64]
      have h1 : ((2 : ℝ)) ^ 27 ≤ 2 ^ 971 :=
        pow_le_pow_right (by norm_num) (by norm_num)
      have h2 : (1 : ℝ) * 2 ^ 971 ≤ ((2 : ℝ) ^ 53 - 1) * 2 ^ 971 := by
        apply mul_le_mul_of_nonneg_right (by norm_num) (by positivity)
      have h3 : (76452000 : ℝ) < 2 ^ 27 := by norm_num
      calc (76452000 : ℝ) < 2 ^ 27 := h3
        _ ≤ 2 ^ 971 := h1
        _ = 1 * 2 ^ 971 := (one_mul _).symm
        _ ≤ ((2 : ℝ) ^ 53 - 1) * 2 ^ 971 := h2
    linarith
  simp only [HaversineDistance]
  exact hkey _ _

/-- C9: `HaversineDistance` is the haversine great-circle formula at Earth
radius 6,371,000 m, and it returns 0 for identical input coordinates. -/
theorem haversine_formula_and_coincident :
    EarthRadiusMeters = (6371000 : ℝ)
    ∧ (∀ lat1 lon1 lat2 lon2 : ℝ,
        HaversineDistance lat1 lon1 lat2 lon2 =
          EarthRadiusMeters * (2 * atan2
            (Real.sqrt (Real.sin ((lat2 - lat1) * Real.pi / 180 / 2)
                * Real.sin ((lat2 - lat1) * Real.pi / 180 / 2)
              + Real.cos (lat1 * Real.pi / 180) * Real.cos (lat2 * Real.pi / 180)
                * Real.sin ((lon2 - lon1) * Real.pi / 180 / 2)
                * Real.sin ((lon2 - lon1) * Real.pi / 180 / 2)))
            (Real.sqrt (1 - (Real.sin ((lat2 - lat1) * Real.pi / 180 / 2)
                * Real.sin ((lat2 - lat1) * Real.pi / 180 / 2)
              + Real.cos (lat1 * Real.pi / 180) * Real.cos (lat2 * Real.pi / 180)
                * Real.sin ((lon2 - lon1) * Real.pi / 180 / 2)
                * Real.sin ((lon2 - lon1) * Real.pi / 180 / 2))))))
    ∧ (∀ lat lon : ℝ, HaversineDistance lat lon lat lon = 0) :=
  ⟨rfl, fun _ _ _ _ => rfl, haversine_self⟩

/-- C1 counterexample: with geofencing enabled, an empty zone list and the
sentinel coordinate `(0,0)`, `ValidateCheckInLocation` accepts — it does not
reject with "no zones configured", because the sentinel short-circuit at line
50 runs before the empty-zone check at line 59. -/
theorem geofence_sentinel_beats_empty_zones :
    ValidateCheckInLocation true 0 0 [] = .ok ()
    ∧ ValidateCheckInLocation true 0 0 [] ≠ .error .noAllowedLocations := by
  constructor
  · simp [ValidateCheckInLocation]
  · simp [ValidateCheckInLocation]

/-- C1 amended: with geofencing enabled and an empty zone list,
`ValidateCheckInLocation` rejects with "no zones configured" for every
non-sentinel coordinate, but the sentinel `(0,0)` short-circuit takes
precedence and accepts. -/
theorem geofence_empty_zones_amended (lat lon : ℝ) (h : ¬(lat = 0 ∧ lon = 0)) :
    ValidateCheckInLocation true lat lon [] = .error .noAllowedLocations
    ∧ ValidateCheckInLocation true 0 0 [] = .ok () := by
  constructor
  · simp [ValidateCheckInLocation, h]
  · simp [ValidateCheckInLocation]

/-- Witness for `geofence_empty_zones_amended` at a concrete non-sentinel
coordinate. -/
theorem geofence_empty_zones_amended_spot :
    ValidateCheckInLocation true 1 2 [] = .error .noAllowedLocations
    ∧ ValidateCheckInLocation true 0 0 [] = .ok () :=
  geofence_empty_zones_amended 1 2 (by norm_num)

theorem checkZones_eq_ok_iff (lat lon : ℝ) :
    ∀ locs : List AllowedLocation,
      (checkZones lat lon locs = .ok () ↔
        ∃ z ∈ locs, HaversineDistance lat lon z.latitude z.longitude ≤ z.radiusMeters) := by
  intro locs
  induction locs with
  | nil => simp [checkZones]
  | cons z rest ih =>
    by_cases h : HaversineDistance lat lon z.latitude z.longitude ≤ z.radiusMeters
    · simp [checkZones, h]
    · simp [checkZones, h, ih]

theorem checkZones_ok_or_outside (lat lon : ℝ) :
    ∀ locs : List AllowedLocation,
      checkZones lat lon locs = .ok ()
      ∨ checkZones lat lon locs = .error .outsideAllowedArea := by
  intro locs
  induction locs with
  | nil => exact Or.inr rfl
  | cons z rest ih =>
    by_cases h : HaversineDistance lat lon z.latitude z.longitude ≤ z.radiusMeters
    · exact Or.inl (by simp [checkZones, h])
    · simpa [checkZones, h] using ih

/-- C7: with geofencing enabled, a non-sentinel coordinate and a non-empty
zone list, `ValidateCheckInLocation` accepts exactly when the haversine
distance to at least one zone center is at most that zone's radius (inclusive
boundary: distance exactly `radius` accepts; distance `radius + 1` against a
single zone rejects with "outside allowed area"). -/
theorem geofence_accept_iff_within (lat lon : ℝ) (locs : List AllowedLocation)
    (hs : ¬(lat = 0 ∧ lon = 0)) (hne : locs ≠ []) :
    (ValidateCheckInLocation true lat lon locs = .ok () ↔
      ∃ z ∈ locs, HaversineDistance lat lon z.latitude z.longitude ≤ z.radiusMeters)
    ∧ (ValidateCheckInLocation true lat lon locs = .error .outsideAllowedArea ↔
      ∀ z ∈ locs, ¬ HaversineDistance lat lon z.latitude z.longitude ≤ z.radiusMeters)
    ∧ (∀ z ∈ locs, HaversineDistance lat lon z.latitude z.longitude = z.radiusMeters →
      ValidateCheckInLocation true lat lon locs = .ok ())
    ∧ (∀ z : AllowedLocation, locs = [z] →
      HaversineDistance lat lon z.latitude z.longitude = z.radiusMeters + 1 →
      ValidateCheckInLocation true lat lon locs = .error .outsideAllowedArea) := by
  obtain ⟨z0, rest, rfl⟩ : ∃ z0 rest, locs = z0 :: rest := by
    cases locs with
    | nil => exact absurd rfl hne
    | cons z0 rest => exact ⟨z0, rest, rfl⟩
  have hval : ValidateCheckInLocation true lat lon (z0 :: rest)
      = checkZones lat lon (z0 :: rest) := by
    simp [ValidateCheckInLocation, hs]
  have hok := checkZones_eq_ok_iff lat lon (z0 :: rest)
  have hcases := checkZones_ok_or_outside lat lon (z0 :: rest)
  have houtside : checkZones lat lon (z0 :: rest) = .error .outsideAllowedArea ↔
      ∀ z ∈ z0 :: rest, ¬ HaversineDistance lat lon z.latitude z.longitude ≤ z.radiusMeters := by
    constructor
    · intro h z hz hle
      have := hok.mpr ⟨z, hz, hle⟩
      rw [h] at this
      cases this
    · intro h
      rcases hcases with hc | hc
      · exact absurd (hok.mp hc) (by
          intro hex
          obtain ⟨z, hz, hle⟩ := hex
          exact h z hz hle)
      · exact hc
  refine ⟨by rw [hval]; exact hok, by rw [hval]; exact houtside, ?_, ?_⟩
  · intro z hz heq
    rw [hval]
    exact hok.mpr ⟨z, hz, le_of_eq heq⟩
  · intro z heq hdist
    injection heq with h1 h2
    subst h1
    subst h2
    rw [hval]
    apply houtside.mpr
    intro y hy
    rcases List.mem_cons.mp hy with rfl | hmem
    · rw [hdist]
      intro hle
      linarith
    · cases hmem

/-- Witness for `geofence_accept_iff_within`: coordinate `(1,1)` against the
single zone centered at `(1,1)` with radius 5. -/
theorem geofence_accept_iff_within_spot :
    (ValidateCheckInLocation true 1 1 [⟨1, 1, 5⟩] = .ok () ↔
      ∃ z ∈ [(⟨1, 1, 5⟩ : AllowedLocation)],
        HaversineDistance 1 1 z.latitude z.longitude ≤ z.radiusMeters)
    ∧ (ValidateCheckInLocation true 1 1 [⟨1, 1, 5⟩] = .error .outsideAllowedArea ↔
      ∀ z ∈ [(⟨1, 1, 5⟩ : AllowedLocation)],
        ¬ HaversineDistance 1 1 z.latitude z.longitude ≤ z.radiusMeters)
    ∧ (∀ z ∈ [(⟨1, 1, 5⟩ : AllowedLocation)],
      HaversineDistance 1 1 z.latitude z.longitude = z.radiusMeters →
      ValidateCheckInLocation true 1 1 [⟨1, 1, 5⟩] = .ok ())
    ∧ (∀ z : AllowedLocation, [(⟨1, 1, 5⟩ : AllowedLocation)] = [z] →
      HaversineDistance 1 1 z.latitude z.longitude = z.radiusMeters + 1 →
      ValidateCheckInLocation true 1 1 [⟨1, 1, 5⟩] = .error .outsideAllowedArea) :=
  geofence_accept_iff_within 1 1 [⟨1, 1, 5⟩] (by norm_num) (by simp)

theorem nearestAux_no_update (lat lon : ℝ) :
    ∀ (rest : List AllowedLocation) (cur : Option AllowedLocation) (m : ℝ),
      (∀ z ∈ rest, ¬ HaversineDistance lat lon z.latitude z.longitude < m) →
      nearestAux lat lon rest cur m = (cur, m) := by
  intro rest
  induction rest with
  | nil => intro cur m _; rfl
  | cons z rest ih =>
    intro cur m h
    rw [nearestAux, if_neg (h z (List.mem_cons_self z rest))]
    exact ih cur m fun y hy => h y (List.mem_cons_of_mem z hy)

theorem nearestAux_update (lat lon : ℝ) :
    ∀ (rest : List AllowedLocation) (cur : Option AllowedLocation) (m : ℝ),
      (∃ z ∈ rest, HaversineDistance lat lon z.latitude z.longitude < m) →
      ∃ pre z post, rest = pre ++ z :: post
        ∧ nearestAux lat lon rest cur m
            = (some z, HaversineDistance lat lon z.latitude z.longitude)
        ∧ HaversineDistance lat lon z.latitude z.longitude < m
        ∧ (∀ y ∈ pre, HaversineDistance lat lon z.latitude z.longitude
            < HaversineDistance lat lon y.latitude y.longitude)
        ∧ (∀ y ∈ post, HaversineDistance lat lon z.latitude z.longitude
            ≤ HaversineDistance lat lon y.latitude y.longitude) := by
  intro rest
  induction rest with
  | nil => intro cur m h; obtain ⟨z, hz, _⟩ := h; cases hz
  | cons a rest ih =>
    intro cur m h
    by_cases ha : HaversineDistance lat lon a.latitude a.longitude < m
    · by_cases hrest : ∃ z ∈ rest,
        HaversineDistance lat lon z.latitude z.longitude
          < HaversineDistance lat lon a.latitude a.longitude
      · obtain ⟨pre, z, post, hsplit, hres, hlt, hpre, hpost⟩ :=
          ih (some a) (HaversineDistance lat lon a.latitude a.longitude) hrest
        refine ⟨a :: pre, z, post, by simp [hsplit], ?_, lt_trans hlt ha, ?_, hpost⟩
        · rw [nearestAux, if_pos ha]
          exact hres
        · intro y hy
          rcases List.mem_cons.mp hy with rfl | hmem
          · exact hlt
          · exact hpre y hmem
      · push_neg at hrest
        refine ⟨[], a, rest, rfl, ?_, ha, ?_, ?_⟩
        · rw [nearestAux, if_pos ha]
          exact nearestAux_no_update lat lon rest (some a)
            (HaversineDistance lat lon a.latitude a.longitude)
            (fun y hy => not_lt.mpr (hrest y hy))
        · intro y hy
          cases hy
        · exact hrest
    · obtain ⟨z, hz, hlt⟩ := h
      have hzrest : z ∈ rest := by
        rcases List.mem_cons.mp hz with rfl | hmem
        · exact absurd hlt ha
        · exact hmem
      obtain ⟨pre, w, post, hsplit, hres, hltw, hpre, hpost⟩ :=
        ih cur m ⟨z, hzrest, hlt⟩
      refine ⟨a :: pre, w, post, by simp [hsplit], ?_, hltw, ?_, hpost⟩
      · rw [nearestAux, if_neg ha]
        exact hres
      · intro y hy
        rcases List.mem_cons.mp hy with rfl | hmem
        · exact lt_of_lt_of_le hltw (not_lt.mp ha)
        · exact hpre y hmem

theorem nearestAux_map_radius (lat lon : ℝ) (f : AllowedLocation → ℝ) :
    ∀ (rest : List AllowedLocation) (cur : Option AllowedLocation) (m : ℝ),
      nearestAux lat lon (rest.map fun w => ⟨w.latitude, w.longitude, f w⟩)
          (cur.map fun w => ⟨w.latitude, w.longitude, f w⟩) m
        = ((nearestAux lat lon rest cur m).1.map fun w => ⟨w.latitude, w.longitude, f w⟩,
           (nearestAux lat lon rest cur m).2) := by
  intro rest
  induction rest with
  | nil => intro cur m; rfl
  | cons z rest ih =>
    intro cur m
    by_cases h : HaversineDistance lat lon z.latitude z.longitude < m
    · simp only [List.map_cons, nearestAux, h, if_true]
      exact ih (some z) _
    · simp only [List.map_cons, nearestAux, h, if_false]
      exact ih cur m

/-- C8: for every coordinate and non-empty zone list, `GetNearestLocation`
returns the zone at minimal haversine distance together with that distance,
ties broken by first-encountered list order (every earlier zone is strictly
farther), and the result does not depend on any zone's radius. -/
theorem getNearestLocation_minimal_first (lat lon : ℝ)
    (locs : List AllowedLocation) (hne : locs ≠ []) :
    (∃ pre z post, locs = pre ++ z :: post
      ∧ GetNearestLocation lat lon locs
          = .ok (some z, HaversineDistance lat lon z.latitude z.longitude)
      ∧ (∀ y ∈ locs, HaversineDistance lat lon z.latitude z.longitude
          ≤ HaversineDistance lat lon y.latitude y.longitude)
      ∧ (∀ y ∈ pre, HaversineDistance lat lon z.latitude z.longitude
          < HaversineDistance lat lon y.latitude y.longitude))
    ∧ (∀ f : AllowedLocation → ℝ,
        GetNearestLocation lat lon (locs.map fun w => ⟨w.latitude, w.longitude, f w⟩)
          = (GetNearestLocation lat lon locs).map fun p =>
              (p.1.map fun w => ⟨w.latitude, w.longitude, f w⟩, p.2)) := by
  constructor
  · obtain ⟨z0, rest, rfl⟩ : ∃ z0 rest, locs = z0 :: rest := by
      cases locs with
      | nil => exact absurd rfl hne
      | cons z0 rest => exact ⟨z0, rest, rfl⟩
    have hupd := nearestAux_update lat lon (z0 :: rest) none maxFloat64
      ⟨z0, List.mem_cons_self z0 rest, haversine_lt_maxFloat lat lon z0.latitude z0.longitude⟩
    obtain ⟨pre, z, post, hsplit, hres, _, hpre, hpost⟩ := hupd
    refine ⟨pre, z, post, hsplit, ?_, ?_, hpre⟩
    · rw [GetNearestLocation]
      rw [hres]
    · intro y hy
      rw [hsplit] at hy
      rcases List.mem_append.mp hy with hmem | hmem
      · exact le_of_lt (hpre y hmem)
      · rcases List.mem_cons.mp hmem with rfl | hmem2
        · exact le_refl _
        · exact hpost y hmem2
  · intro f
    cases locs with
    | nil => rfl
    | cons z0 rest =>
      have := nearestAux_map_radius lat lon f (z0 :: rest) none maxFloat64
      simp only [Option.map_none', List.map_cons] at this
      simp only [GetNearestLocation, List.map_cons, Except.map, this]

/-- Witness for `getNearestLocation_minimal_first`: coordinate `(1,1)` with
two zones. -/
theorem getNearestLocation_minimal_first_spot :
    (∃ pre z post,
      [(⟨1, 1, 5⟩ : AllowedLocation), ⟨2, 2, 7⟩] = pre ++ z :: post
      ∧ GetNearestLocation 1 1 [⟨1, 1, 5⟩, ⟨2, 2, 7⟩]
          = .ok (some z, HaversineDistance 1 1 z.latitude z.longitude)
      ∧ (∀ y ∈ [(⟨1, 1, 5⟩ : AllowedLocation), ⟨2, 2, 7⟩],
          HaversineDistance 1 1 z.latitude z.longitude
            ≤ HaversineDistance 1 1 y.latitude y.longitude)
      ∧ (∀ y ∈ pre, HaversineDistance 1 1 z.latitude z.longitude
          < HaversineDistance 1 1 y.latitude y.longitude))
    ∧ (∀ f : AllowedLocation → ℝ,
        GetNearestLocation 1 1
            ([(⟨1, 1, 5⟩ : AllowedLocation), ⟨2, 2, 7⟩].map
              fun w => ⟨w.latitude, w.longitude, f w⟩)
          = (GetNearestLocation 1 1 [⟨1, 1, 5⟩, ⟨2, 2, 7⟩]).map fun p =>
              (p.1.map fun w => ⟨w.latitude, w.longitude, f w⟩, p.2)) :=
  getNearestLocation_minimal_first 1 1 [⟨1, 1, 5⟩, ⟨2, 2, 7⟩] (by simp)
